import Mathlib

/-!
Shallow embedding of `isso/db/__init__.py`: a per-thread SQLite connection
pool (`SQLite3`), a transaction context manager (`Transaction`) and a
versioned schema-migration engine (`Adapter`).  The database file is
modelled as an explicit record of the parts the shown code touches: the
catalog of table names, the `PRAGMA user_version` counter, the rows of the
`comments` and `preferences` tables and the installed triggers.
-/

/-- A row of the `comments` table, restricted to the columns the shown code
reads or writes: the primary key `id`, the `parent` reference (NULL or the
id of another comment) and the `voters` blob rewritten by the 0-to-1
migration step. -/
structure Comment where
  id : Nat
  parent : Option Nat
  voters : String
  deriving DecidableEq

/-- The state of one SQLite database file, restricted to what the shown
code touches. -/
structure DB where
  tables : List String
  user_version : Nat
  comments : List Comment
  preferences : List (String × String)
  triggers : List String
  deriving DecidableEq

/-- The external configuration, restricted to the single option the shown
code reads: `sessionKey = some v` models
`conf.has_option("general", "session-key")` being true with
`conf.get("general", "session-key") = v`, and `none` models the option
being absent. -/
structure Conf where
  sessionKey : Option String
  deriving DecidableEq

/-- Query `SELECT id FROM comments WHERE parent=?` with parameter `x`, in
table order. -/
def childrenIds (cs : List Comment) (x : Nat) : List Nat :=
  (cs.filter (fun c => c.parent == some x)).map (fun c => c.id)

/-- Query `SELECT id FROM comments WHERE parent IS NULL`, in table order. -/
def topIds (cs : List Comment) : List Nat :=
  (cs.filter (fun c => c.parent == none)).map (fun c => c.id)

/-- Fuel for the work-stack loop of the 2-to-3 migration step.  The Python
`while ids:` loop runs until the stack empties; on data where it
terminates (each comment pushed at most once, as in any forest with
distinct ids) it performs at most `cs.length` pops, so `cs.length + 2`
iterations always reach the empty stack.  Theorems about the step carry
the hypothesis that the stack does empty within this fuel. -/
def stackFuel (cs : List Comment) : Nat :=
  cs.length + 2

/-- The inner `while ids:` loop of the 2-to-3 migration step:
`rv = first(con.execute("SELECT id FROM comments WHERE parent=?", (ids.pop(), )))`
(Python `list.pop()` removes the LAST element), `ids.extend(rv)`,
`flattened[id].update(set(rv))`.  Returns the remaining stack (empty when
the loop finished within the fuel) together with the accumulated set. -/
def collect (cs : List Comment) : Nat → List Nat → Finset Nat → List Nat × Finset Nat
  | 0, ids, acc => (ids, acc)
  | _ + 1, [], acc => ([], acc)
  | fuel + 1, a :: rest, acc =>
      let x := (a :: rest).getLast (List.cons_ne_nil a rest)
      collect cs fuel ((a :: rest).dropLast ++ childrenIds cs x)
        (acc ∪ (childrenIds cs x).toFinset)

/-- The set `flattened[r]` accumulated by the traversal started at root
`r` (the loop body `ids = [id, ]; while ids: ...`). -/
def collectSet (cs : List Comment) (r : Nat) : Finset Nat :=
  (collect cs (stackFuel cs) [r] ∅).2

/-- One `flattened[id].update(...)` on the defaultdict, modelled as an
insertion-ordered association list: an existing key has its set enlarged
by union, a new key is appended. -/
def updateFlattened (m : List (Nat × Finset Nat)) (k : Nat) (s : Finset Nat) :
    List (Nat × Finset Nat) :=
  match m with
  | [] => [(k, s)]
  | (k', s') :: rest =>
      if k' = k then (k', s' ∪ s) :: rest
      else (k', s') :: updateFlattened rest k s

/-- The `flattened` defaultdict after the `for id in top:` loop: one entry
per distinct root id, in first-insertion order. -/
def buildFlattened (cs : List Comment) (top : List Nat) : List (Nat × Finset Nat) :=
  top.foldl (fun m id => updateFlattened m id (collectSet cs id)) []

/-- Loop `for n in flattened[id]:` issuing
`con.execute("UPDATE comments SET parent=? WHERE id=?", (id, n))`:
each UPDATE rewrites every row whose id is `n`; since all updates of one
set write the same `parent` value and any one row is matched by at most
one `n` of the set, iterating the (unordered Python) set is equivalent to
a single pass testing membership. -/
def applyRootSet (r : Nat) (s : Finset Nat) (cs : List Comment) : List Comment :=
  cs.map (fun c => if c.id ∈ s then { c with parent := some r } else c)

/-- The outer `for id in flattened.keys():` loop (Python dict iteration is
key-insertion order). -/
def applyFlattened (m : List (Nat × Finset Nat)) (cs : List Comment) : List Comment :=
  m.foldl (fun cs rs => applyRootSet rs.1 rs.2 cs) cs

/-- The effect of `applyFlattened` on a single row: the fold of all the
UPDATE statements over one comment. -/
def applyToComment (m : List (Nat × Finset Nat)) (c : Comment) : Comment :=
  m.foldl (fun c rs => if c.id ∈ rs.2 then { c with parent := some rs.1 } else c) c

/-- Relation `Reaches cs x y`: the comment with id `y` is transitively reachable
from id `x` by following the `parent` links downwards (a strict
descendant at any depth). -/
inductive Reaches (cs : List Comment) : Nat → Nat → Prop where
  | child (c : Comment) (hc : c ∈ cs) (hp : c.parent = some x) : Reaches cs x c.id
  | step (c : Comment) (hr : Reaches cs x y) (hc : c ∈ cs) (hp : c.parent = some y) :
      Reaches cs x c.id

/-- Modelled from the spec: the 0-to-1 step recomputes each comment's
`voters` bloomfilter blob from the fixed seed `"127.0.0.0"`
(`buffer(Bloomfilter(iterable=["127.0.0.0"]).array)`).  The class
`isso.utils.Bloomfilter` is not part of the shown source, so the
recomputed blob is an abstract constant; no claim depends on its bytes. -/
def migratedVotersBlob : String := "bloomfilter-127.0.0.0"

/-- Migration step 0-to-1 (lines 138-146): `UPDATE comments SET voters=?`
for every row, then `PRAGMA user_version = 1`, inside one transaction. -/
def step0to1 (db : DB) : DB :=
  { db with
    comments := db.comments.map (fun c => { c with voters := migratedVotersBlob }),
    user_version := 1 }

/-- Migration step 1-to-2 (lines 149-157): if the configuration defines
`[general] session-key`, `UPDATE preferences SET value=? WHERE key=?` with
`(conf.get("general", "session-key"), "session-key")`; in both cases
`PRAGMA user_version = 2`, inside one transaction.  Note this is an
UPDATE: rows are only rewritten, never inserted. -/
def step1to2 (conf : Conf) (db : DB) : DB :=
  match conf.sessionKey with
  | some v =>
      { db with
        preferences := db.preferences.map
          (fun kv => if kv.1 == "session-key" then (kv.1, v) else kv),
        user_version := 2 }
  | none => { db with user_version := 2 }

/-- Migration step 2-to-3 (lines 160-182): collect, for every root comment
(parent IS NULL), all transitively reachable comment ids with an explicit
work stack, rewrite each collected id's parent to the root, then
`PRAGMA user_version = 3`, inside one transaction. -/
def step2to3 (db : DB) : DB :=
  { db with
    comments := applyFlattened (buildFlattened db.comments (topIds db.comments)) db.comments,
    user_version := 3 }

/-- Block `if self.version == 0:` of `Adapter.migrate`; the stored version
is re-read after each block, which the sequential composition models. -/
def afterStep0 (db : DB) : DB :=
  if db.user_version = 0 then step0to1 db else db

/-- Block `if self.version == 1:` of `Adapter.migrate`. -/
def afterStep1 (conf : Conf) (db : DB) : DB :=
  if db.user_version = 1 then step1to2 conf db else db

/-- Block `if self.version == 2:` of `Adapter.migrate`. -/
def afterStep2 (db : DB) : DB :=
  if db.user_version = 2 then step2to3 db else db

def Adapter.MAX_VERSION : Nat := 3

/-- Method `Adapter.migrate(to)`: return immediately when the stored version is
at least `to`, otherwise run the three version-gated blocks in order.
Note the blocks test only the current stored version, never `to`.  The
parameter is named `tov` because `to` is a reserved token in Lean. -/
def Adapter.migrate (conf : Conf) (db : DB) (tov : Nat) : DB :=
  if tov ≤ db.user_version then db
  else afterStep2 (afterStep1 conf (afterStep0 db))

/-- The bootstrap catalog query of `Adapter.__init__` (lines 103-106):
`SELECT name FROM sqlite_master WHERE type='table' AND name IN
('threads', 'comments', 'preferences')`, then `fetchone()`: the first
matching table name, or `none` when no core table exists. -/
def coreTablesQueryRow (db : DB) : Option String :=
  db.tables.find? (fun n => n == "threads" || n == "comments" || n == "preferences")

/-- Statement `CREATE TRIGGER IF NOT EXISTS remove_stale_threads ...` (lines
118-123): installs the trigger only when absent. -/
def installStaleThreadsTrigger (db : DB) : DB :=
  if db.triggers.contains "remove_stale_threads" then db
  else { db with triggers := db.triggers ++ ["remove_stale_threads"] }

/-- Constructor `Adapter.__init__` (lines 99-123): run the catalog query; if it
returns no row, set the version directly to `MAX_VERSION`, otherwise run
`migrate(to=MAX_VERSION)`; finally install the orphan-removal trigger.
The table-module constructors run between the query and the version
handling but are out-of-scope collaborators. -/
def Adapter.init (conf : Conf) (db : DB) : DB :=
  installStaleThreadsTrigger
    (match coreTablesQueryRow db with
     | none => { db with user_version := Adapter.MAX_VERSION }
     | some _ => Adapter.migrate conf db Adapter.MAX_VERSION)

/-- A `sqlite3` connection as `Transaction` sees it: the current
`isolation_level` attribute, the committed database state, and the open
transaction's uncommitted view (`pending = none` outside a transaction).
`commit` makes the pending view durable; `rollback` discards it. -/
structure Conn where
  isolation_level : Option String
  data : DB
  pending : Option DB
  deriving DecidableEq

/-- Statement `con.execute("BEGIN IMMEDIATE")`: opens a transaction whose view
starts from the committed state. -/
def Conn.beginImmediate (c : Conn) : Conn :=
  { c with pending := some c.data }

/-- Call `con.commit()`: the pending view becomes the committed state. -/
def Conn.commit (c : Conn) : Conn :=
  match c.pending with
  | some d => { c with data := d, pending := none }
  | none => c

/-- Call `con.rollback()`: the pending view is discarded, the committed state
is untouched. -/
def Conn.rollback (c : Conn) : Conn :=
  { c with pending := none }

/-- Method `Transaction.__enter__`: saves the original isolation level, sets it
to IMMEDIATE and begins an immediate transaction.  Returns the connection
and the saved level. -/
def Transaction.enter (con : Conn) : Conn × Option String :=
  (({ con with isolation_level := some "IMMEDIATE" }).beginImmediate, con.isolation_level)

/-- Method `Transaction.__exit__`: rolls back when an exception left the block
(`excRaised`), otherwise commits; in a `finally` it restores the saved
isolation level.  `commitRaises` and `rollbackRaises` inject a failure of
`con.commit()` / `con.rollback()` respectively; a failed commit or
rollback leaves the committed data unchanged.  Returns whether an
exception propagates out of the `with` statement (a body exception always
does, since `__exit__` returns a falsy value) and the final connection
state. -/
def Transaction.exit (orig : Option String) (excRaised commitRaises rollbackRaises : Bool)
    (con : Conn) : Bool × Conn :=
  let r :=
    if excRaised then
      if rollbackRaises then (true, con) else (true, con.rollback)
    else
      if commitRaises then (true, con) else (false, con.commit)
  (r.1, { r.2 with isolation_level := orig })

/-- A whole `with Transaction(con) as con: body` block.  The body consumes
the transaction's view of the data and returns whether it raised together
with the view it had produced by then; an aborted body still leaves those
partial writes in the open (uncommitted) transaction. -/
def Transaction.run (con : Conn) (body : DB → Bool × DB)
    (commitRaises rollbackRaises : Bool) : Bool × Conn :=
  let (c, orig) := Transaction.enter con
  let b := body (c.pending.getD c.data)
  Transaction.exit orig b.1 commitRaises rollbackRaises { c with pending := some b.2 }

/-- The Python exceptions the connection pool can raise. -/
inductive PyErr where
  | attributeError
  deriving DecidableEq

/-- A physical `sqlite3` connection handle. -/
structure Handle where
  id : Nat
  isOpen : Bool
  deriving DecidableEq

/-- The `SQLite3` pool as seen by one thread: `conn = none` models the
thread-local attribute `self.local.conn` never having been set,
`conn = some none` models it set to Python `None`, and
`conn = some (some h)` models an actual handle.  `nextId` numbers freshly
opened handles so distinct connections are distinguishable. -/
structure SQLite3 where
  db : String
  conn : Option (Option Handle)
  nextId : Nat
  deriving DecidableEq

/-- The handle `sqlite3.connect(self.db, isolation_level=None)` would
return in the current state: a fresh open connection. -/
def SQLite3.newHandle (s : SQLite3) : Handle :=
  { id := s.nextId, isOpen := true }

/-- Method `SQLite3.connect`: stores a fresh open handle in the calling thread's
slot (replacing whatever was there). -/
def SQLite3.connect (s : SQLite3) : SQLite3 :=
  { s with conn := some (some s.newHandle), nextId := s.nextId + 1 }

/-- Method `SQLite3.close`: `self.local.conn.close(); self.local.conn = None`.
Accessing `self.local.conn` when the attribute was never set raises
`AttributeError`, and calling `.close()` on `None` also raises
`AttributeError`; only an actual handle can be closed. -/
def SQLite3.close (s : SQLite3) : Except PyErr SQLite3 :=
  match s.conn with
  | some (some _) => .ok { s with conn := some none }
  | _ => .error .attributeError

/-- The `connection` property: reconnect when the slot is missing or
`None`, then return the slot's handle.  (`SQLite3.connect` puts
`s.newHandle` into the slot, which is what the re-read returns.) -/
def SQLite3.connection (s : SQLite3) : Handle × SQLite3 :=
  match s.conn with
  | some (some h) => (h, s)
  | _ => (s.newHandle, s.connect)

/-- The `sql` argument of `SQLite3.execute`: either a single statement or
a list/tuple of fragments. -/
inductive Sql where
  | str (s : String)
  | frags (parts : List String)
  deriving DecidableEq

/-- Normalization `if isinstance(sql, (list, tuple)): sql = ' '.join(sql)`. -/
def joinSql : Sql → String
  | .str s => s
  | .frags parts => String.intercalate " " parts

/-- Method `SQLite3.execute`: normalizes the statement and runs it on the
thread's (lazily opened) connection.  The call handed to the underlying
engine is modelled as the triple of the handle used, the statement string
and the bound arguments. -/
def SQLite3.execute (s : SQLite3) (sql : Sql) (args : List String) :
    (Handle × String × List String) × SQLite3 :=
  let hs := s.connection
  ((hs.1, joinSql sql, args), hs.2)

/-- Every handle stored in the thread's slot is open. -/
def openSlotInv (s : SQLite3) : Prop :=
  ∀ h, s.conn = some (some h) → h.isOpen = true

/-- The comment forest of the spec's flattening test: `root → a → b → c`
and `root → d` (ids 1, 2, 3, 4 and 5), at schema version 2. -/
def dbSpecTree : DB :=
  { tables := ["threads", "comments", "preferences"]
    user_version := 2
    comments :=
      [ { id := 1, parent := none, voters := "v1" }
      , { id := 2, parent := some 1, voters := "v2" }
      , { id := 3, parent := some 2, voters := "v3" }
      , { id := 4, parent := some 3, voters := "v4" }
      , { id := 5, parent := some 1, voters := "v5" } ]
    preferences := [("session-key", "old")]
    triggers := [] }

/-- A chain `1 → 2 → 3` at schema version 2: comment 3 has no
descendants. -/
def dbChain : DB :=
  { tables := ["comments"]
    user_version := 2
    comments :=
      [ { id := 1, parent := none, voters := "a" }
      , { id := 2, parent := some 1, voters := "b" }
      , { id := 3, parent := some 2, voters := "c" } ]
    preferences := []
    triggers := [] }

/-- A version-0 database with no rows. -/
def dbV0 : DB :=
  { tables := ["comments"], user_version := 0, comments := [], preferences := [],
    triggers := [] }

/-- A version-1 database whose `preferences` table has no `session-key`
row. -/
def dbNoPrefRow : DB :=
  { tables := ["threads", "comments", "preferences"], user_version := 1, comments := [],
    preferences := [], triggers := [] }

/-- A database file with none of the three core tables. -/
def dbFresh : DB :=
  { tables := ["log"], user_version := 0, comments := [], preferences := [],
    triggers := [] }

/-- A configuration that defines `[general] session-key`. -/
def confWithKey : Conf := { sessionKey := some "secret" }

/-- A configuration without `[general] session-key`. -/
def confNoKey : Conf := { sessionKey := none }

/-- A connection outside any transaction, on the empty version-0 file. -/
def connW : Conn := { isolation_level := none, data := dbV0, pending := none }

/-- A transaction body that writes the version and then raises. -/
def bodyAbort : DB → Bool × DB :=
  fun d => (true, { d with user_version := 9 })

/-- A transaction body that writes the version and returns normally. -/
def bodyOk : DB → Bool × DB :=
  fun d => (false, { d with user_version := 9 })

/-- A pool whose thread already opened handle 0. -/
def poolConnected : SQLite3 := { db := "isso.db", conn := some (some { id := 0, isOpen := true }), nextId := 1 }

/-- State of `poolConnected` right after a successful `close()`. -/
def poolAfterClose : SQLite3 := { db := "isso.db", conn := some none, nextId := 1 }

/-- A pool whose thread never connected. -/
def poolNoConn : SQLite3 := { db := "isso.db", conn := none, nextId := 0 }

@[simp] lemma step0to1_user_version (db : DB) : (step0to1 db).user_version = 1 := rfl

@[simp] lemma step1to2_user_version (conf : Conf) (db : DB) :
    (step1to2 conf db).user_version = 2 := by
  cases h : conf.sessionKey <;> simp [step1to2, h]

@[simp] lemma step2to3_user_version (db : DB) : (step2to3 db).user_version = 3 := rfl

lemma runSteps_user_version (conf : Conf) (db : DB) :
    (afterStep2 (afterStep1 conf (afterStep0 db))).user_version =
      if db.user_version = 0 ∨ db.user_version = 1 ∨ db.user_version = 2 then 3
      else db.user_version := by
  by_cases h0 : db.user_version = 0
  · simp [afterStep0, afterStep1, afterStep2, h0]
  · by_cases h1 : db.user_version = 1
    · simp [afterStep0, afterStep1, afterStep2, h0, h1]
    · by_cases h2 : db.user_version = 2
      · simp [afterStep0, afterStep1, afterStep2, h0, h1, h2]
      · simp [afterStep0, afterStep1, afterStep2, h0, h1, h2]

lemma runSteps_eq_self (conf : Conf) (db : DB) (h0 : db.user_version ≠ 0)
    (h1 : db.user_version ≠ 1) (h2 : db.user_version ≠ 2) :
    afterStep2 (afterStep1 conf (afterStep0 db)) = db := by
  simp [afterStep0, afterStep1, afterStep2, h0, h1, h2]

@[simp] lemma installStaleThreadsTrigger_user_version (db : DB) :
    (installStaleThreadsTrigger db).user_version = db.user_version := by
  unfold installStaleThreadsTrigger; split <;> rfl

@[simp] lemma installStaleThreadsTrigger_comments (db : DB) :
    (installStaleThreadsTrigger db).comments = db.comments := by
  unfold installStaleThreadsTrigger; split <;> rfl

@[simp] lemma installStaleThreadsTrigger_preferences (db : DB) :
    (installStaleThreadsTrigger db).preferences = db.preferences := by
  unfold installStaleThreadsTrigger; split <;> rfl

/-- C4: the stored schema version after any completed `migrate` call is at
least the version before it: the migration engine never decreases the
persisted version. -/
theorem migrate_version_monotone (conf : Conf) (db : DB) (tov : Nat) :
    db.user_version ≤ (Adapter.migrate conf db tov).user_version := by
  unfold Adapter.migrate
  split
  · exact le_refl _
  · rw [runSteps_user_version]
    split <;> omega

/-- C3: when the stored version is already at least the target,
`migrate` returns the database unchanged; consequently running `migrate`
twice with the same target gives the same database as running it once
(the second call is a no-op). -/
theorem migrate_idempotent (conf : Conf) (db : DB) (tov : Nat) :
    (tov ≤ db.user_version → Adapter.migrate conf db tov = db) ∧
    Adapter.migrate conf (Adapter.migrate conf db tov) tov = Adapter.migrate conf db tov := by
  constructor
  · intro h
    simp [Adapter.migrate, h]
  · by_cases h : tov ≤ db.user_version
    · simp [Adapter.migrate, h]
    · have hm : Adapter.migrate conf db tov = afterStep2 (afterStep1 conf (afterStep0 db)) := by
        simp [Adapter.migrate, h]
      rw [hm]
      have hv := runSteps_user_version conf db
      by_cases h' : tov ≤ (afterStep2 (afterStep1 conf (afterStep0 db))).user_version
      · simp [Adapter.migrate, h']
      · unfold Adapter.migrate
        rw [if_neg h']
        split at hv
        · exact runSteps_eq_self conf _ (by omega) (by omega) (by omega)
        · exact runSteps_eq_self conf _ (by omega) (by omega) (by omega)

/-- C5 counterexample: starting from version 0 with target 1, `migrate`
ends at version 3, exceeding `max(v, to) = 1` — the 1-to-2 and 2-to-3
steps ran even though their from-versions are at least the target. -/
theorem migrate_target_counterexample :
    dbV0.user_version = 0 ∧
    (Adapter.migrate confNoKey dbV0 1).user_version = 3 ∧
    ¬ (Adapter.migrate confNoKey dbV0 1).user_version ≤ max dbV0.user_version 1 := by
  decide

/-- C5 amended: the step blocks are gated only on the current stored
version, never on the target, so whenever the stored version is below the
target and is one of 0, 1, 2, migration runs through to version 3
(`MAX_VERSION`); the version after `migrate` is bounded by
`max(v, MAX_VERSION)`, not by `max(v, to)`. -/
theorem migrate_version_bound (conf : Conf) (db : DB) (tov : Nat) :
    (Adapter.migrate conf db tov).user_version ≤ max db.user_version Adapter.MAX_VERSION ∧
    (db.user_version < tov →
      ((db.user_version = 0 ∨ db.user_version = 1 ∨ db.user_version = 2) →
        (Adapter.migrate conf db tov).user_version = 3) ∧
      (Adapter.MAX_VERSION ≤ db.user_version →
        (Adapter.migrate conf db tov).user_version = db.user_version)) := by
  unfold Adapter.migrate
  split
  · refine ⟨le_max_left _ _, ?_⟩
    intro hlt
    omega
  · rw [runSteps_user_version]
    refine ⟨?_, ?_⟩
    · split <;> simp [Adapter.MAX_VERSION]
    · intro hlt
      constructor
      · intro hcase
        rw [if_pos hcase]
      · intro hge
        rw [if_neg (by simp [Adapter.MAX_VERSION] at hge; omega)]

/-- C6: at `Adapter` construction, when the catalog query finds none of
the core tables the version is set directly to `MAX_VERSION` and neither
`comments` nor `preferences` is touched (no migration step body runs);
when the query returns a row, `migrate(to=MAX_VERSION)` is invoked
instead. -/
theorem fresh_database_shortcut (conf : Conf) (db : DB) :
    (coreTablesQueryRow db = none →
      Adapter.init conf db =
        installStaleThreadsTrigger { db with user_version := Adapter.MAX_VERSION } ∧
      (Adapter.init conf db).user_version = Adapter.MAX_VERSION ∧
      (Adapter.init conf db).comments = db.comments ∧
      (Adapter.init conf db).preferences = db.preferences) ∧
    (∀ r, coreTablesQueryRow db = some r →
      Adapter.init conf db =
        installStaleThreadsTrigger (Adapter.migrate conf db Adapter.MAX_VERSION)) := by
  constructor
  · intro h
    simp [Adapter.init, h]
  · intro r h
    simp [Adapter.init, h]

/-- C6 witness: on a database with no core tables, construction sets the
version to 3 and leaves the (empty) row sets alone. -/
theorem fresh_database_shortcut_witness :
    coreTablesQueryRow dbFresh = none ∧
    (Adapter.init confNoKey dbFresh).user_version = Adapter.MAX_VERSION := by
  refine ⟨by decide, ?_⟩
  exact ((fresh_database_shortcut confNoKey dbFresh).1 (by decide)).2.1

/-- C7 counterexample: with `[general] session-key = "secret"` configured
but no pre-existing `session-key` row, the 1-to-2 step stores nothing —
its SQL is an UPDATE, which rewrites existing rows only — even though it
still bumps the version to 2. -/
theorem session_key_update_counterexample :
    confWithKey.sessionKey = some "secret" ∧
    (step1to2 confWithKey dbNoPrefRow).user_version = 2 ∧
    (step1to2 confWithKey dbNoPrefRow).preferences = [] := by
  decide

/-- C7 amended: when the configuration defines `[general] session-key`,
the 1-to-2 step overwrites the value of every existing `session-key` row
with the configured value (so the value is stored exactly when such a row
already exists); when the option is absent no data change is made; in
both cases the same step bumps the version to 2. -/
theorem session_key_migration (conf : Conf) (db : DB) (v : String) :
    (conf.sessionKey = some v →
      (step1to2 conf db).preferences =
        db.preferences.map (fun kv => if kv.1 == "session-key" then (kv.1, v) else kv) ∧
      (∀ kv ∈ (step1to2 conf db).preferences, kv.1 = "session-key" → kv.2 = v) ∧
      ("session-key" ∈ db.preferences.map Prod.fst →
        ("session-key", v) ∈ (step1to2 conf db).preferences)) ∧
    (conf.sessionKey = none → (step1to2 conf db).preferences = db.preferences) ∧
    (step1to2 conf db).user_version = 2 := by
  refine ⟨?_, ?_, by simp⟩
  · intro h
    have hpref : (step1to2 conf db).preferences =
        db.preferences.map (fun kv => if kv.1 == "session-key" then (kv.1, v) else kv) := by
      simp [step1to2, h]
    refine ⟨hpref, ?_, ?_⟩
    · intro kv hkv hfst
      rw [hpref] at hkv
      obtain ⟨kv0, hmem, heq⟩ := List.mem_map.mp hkv
      by_cases hab : kv0.1 = "session-key"
      · simp [hab] at heq
        rw [← heq]
      · simp [hab] at heq
        rw [← heq] at hfst
        exact absurd hfst hab
    · intro hkey
      obtain ⟨kv0, hmem, hfst⟩ := List.mem_map.mp hkey
      rw [hpref]
      refine List.mem_map.mpr ⟨kv0, hmem, ?_⟩
      simp [hfst]
  · intro h
    simp [step1to2, h]

/-- C2: for every transaction block, if an exception propagates out then
the committed database — schema version and all rows — is exactly its
pre-block value (the writes were rolled back); on normal exit (and a
commit that does not itself fail) the body's writes are committed; and on
every exit path, including a failing commit or rollback, the connection's
isolation level is restored to its pre-entry value. -/
theorem transaction_rollback_commit_restore (con : Conn) (body : DB → Bool × DB)
    (commitRaises rollbackRaises : Bool) :
    ((Transaction.run con body commitRaises rollbackRaises).2.isolation_level =
        con.isolation_level) ∧
    ((body con.data).1 = true →
      (Transaction.run con body commitRaises rollbackRaises).2.data = con.data) ∧
    ((body con.data).1 = false → commitRaises = false →
      (Transaction.run con body commitRaises rollbackRaises).2.data = (body con.data).2) := by
  unfold Transaction.run Transaction.enter Transaction.exit
  unfold Conn.beginImmediate Conn.commit Conn.rollback
  cases hb : (body con.data).1 <;>
    cases commitRaises <;> cases rollbackRaises <;> simp_all

/-- C8 counterexample: `close()` raises `AttributeError` both when the
thread never connected (the thread-local attribute is unset) and when the
handle was already closed (the slot holds `None`) — it does not fail
silently. -/
theorem close_counterexample :
    SQLite3.close { db := "p", conn := none, nextId := 0 } = .error .attributeError ∧
    SQLite3.close { db := "p", conn := some none, nextId := 1 } = .error .attributeError :=
  ⟨rfl, rfl⟩

/-- C8 amended: when the calling thread has no connection handle — never
connected or already closed — `close()` raises an `AttributeError`; only
when an open handle exists does it succeed, clearing the slot to `None`. -/
theorem close_without_handle_raises (s : SQLite3) :
    ((s.conn = none ∨ s.conn = some none) → s.close = .error .attributeError) ∧
    (∀ h, s.conn = some (some h) → s.close = .ok { s with conn := some none }) := by
  constructor
  · rintro (h | h) <;> simp [SQLite3.close, h]
  · intro h hc
    simp [SQLite3.close, hc]

/-- C10: `execute` always runs on an open handle: assuming every handle
stored in the slot is open (which `connect` establishes and `close`
preserves by clearing the slot), the handle `execute` uses is open and
the invariant is preserved; the `connection` accessor reconnects exactly
when the slot is missing or `None`; and immediately after a successful
`close()` the slot holds `None`, so the next `execute` lazily opens a
fresh handle rather than using a closed or absent one. -/
theorem execute_uses_open_handle (s s' : SQLite3) (sql : Sql) (args : List String)
    (hinv : openSlotInv s) :
    ((s.execute sql args).1.1.isOpen = true) ∧
    openSlotInv (s.execute sql args).2 ∧
    ((s.conn = none ∨ s.conn = some none) → s.connection = (s.newHandle, s.connect)) ∧
    (s.close = .ok s' →
      s'.conn = some none ∧
      s'.connection = (s'.newHandle, s'.connect) ∧
      (s'.execute sql args).1.1 = s'.newHandle ∧
      s'.newHandle.isOpen = true) := by
  refine ⟨?_, ?_, ?_, ?_⟩
  · match hc : s.conn with
    | some (some h) => simpa [SQLite3.execute, SQLite3.connection, hc] using hinv h hc
    | some none => simp [SQLite3.execute, SQLite3.connection, hc, SQLite3.newHandle]
    | none => simp [SQLite3.execute, SQLite3.connection, hc, SQLite3.newHandle]
  · match hc : s.conn with
    | some (some h) =>
        simpa [SQLite3.execute, SQLite3.connection, hc, openSlotInv] using hinv
    | some none =>
        intro h hh
        simp [SQLite3.execute, SQLite3.connection, hc, SQLite3.connect,
          SQLite3.newHandle] at hh
        simp [← hh]
    | none =>
        intro h hh
        simp [SQLite3.execute, SQLite3.connection, hc, SQLite3.connect,
          SQLite3.newHandle] at hh
        simp [← hh]
  · rintro (hc | hc) <;> simp [SQLite3.connection, hc]
  · intro hok
    match hc : s.conn with
    | some (some h) =>
        simp [SQLite3.close, hc] at hok
        subst hok
        refine ⟨rfl, rfl, rfl, rfl⟩
    | some none => simp [SQLite3.close, hc] at hok
    | none => simp [SQLite3.close, hc] at hok

/-- C3 witness: on a version-2 database, `migrate(to=2)` changes
nothing. -/
theorem migrate_idempotent_witness :
    Adapter.migrate confNoKey dbChain 2 = dbChain :=
  (migrate_idempotent confNoKey dbChain 2).1 (by decide)

/-- C5 amended witness: from version 0 with target 5, migration ends at
version 3. -/
theorem migrate_version_bound_witness :
    (Adapter.migrate confNoKey dbV0 5).user_version = 3 :=
  ((migrate_version_bound confNoKey dbV0 5).2 (by decide)).1 (by decide)

/-- C7 amended witness: with a pre-existing `session-key` row, the
configured value ends up stored. -/
theorem session_key_migration_witness :
    ("session-key", "secret") ∈ (step1to2 confWithKey dbSpecTree).preferences :=
  ((session_key_migration confWithKey dbSpecTree "secret").1 rfl).2.2 (by decide)

/-- C2 witness: an aborting body leaves the committed state untouched, a
normal body commits its write, and both restore the isolation level. -/
theorem transaction_rollback_commit_restore_witness :
    (Transaction.run connW bodyAbort false false).2.data = connW.data ∧
    (Transaction.run connW bodyAbort false false).2.isolation_level = connW.isolation_level ∧
    (Transaction.run connW bodyOk false false).2.data = (bodyOk connW.data).2 :=
  ⟨(transaction_rollback_commit_restore connW bodyAbort false false).2.1 rfl,
   (transaction_rollback_commit_restore connW bodyAbort false false).1,
   (transaction_rollback_commit_restore connW bodyOk false false).2.2 rfl rfl⟩

/-- C8 amended witness: a never-connected thread's `close()` raises, and a
connected thread's `close()` clears the slot. -/
theorem close_without_handle_raises_witness :
    SQLite3.close poolNoConn = .error .attributeError ∧
    SQLite3.close poolConnected = .ok poolAfterClose :=
  ⟨(close_without_handle_raises poolNoConn).1 (Or.inl rfl),
   (close_without_handle_raises poolConnected).2 { id := 0, isOpen := true } rfl⟩

/-- C10 witness: right after a close, `execute` runs on the freshly opened
(open) handle. -/
theorem execute_uses_open_handle_witness :
    ((poolAfterClose.execute (Sql.str "SELECT 1") []).1.1 = poolAfterClose.newHandle) ∧
    poolAfterClose.newHandle.isOpen = true := by
  have hinv : openSlotInv poolConnected := by
    intro h hh
    simp [poolConnected] at hh
    simp [← hh]
  have h := (execute_uses_open_handle poolConnected poolAfterClose
    (Sql.str "SELECT 1") [] hinv).2.2.2 rfl
  exact ⟨h.2.2.1, h.2.2.2⟩

/-- C9: a list (or tuple) of SQL fragments is executed exactly as the
single statement obtained by joining the fragments with one space, and a
plain string statement is passed through unchanged. -/
theorem execute_joins_fragments (s : SQLite3) (parts : List String)
    (args : List String) (q : String) :
    s.execute (Sql.frags parts) args =
      s.execute (Sql.str (String.intercalate " " parts)) args ∧
    joinSql (Sql.str q) = q :=
  ⟨rfl, rfl⟩

lemma mem_childrenIds {cs : List Comment} {x y : Nat} :
    y ∈ childrenIds cs x ↔ ∃ c, c ∈ cs ∧ c.parent = some x ∧ c.id = y := by
  simp [childrenIds, List.mem_filter, and_assoc]

lemma mem_topIds {cs : List Comment} {r : Nat} :
    r ∈ topIds cs ↔ ∃ c, c ∈ cs ∧ c.parent = none ∧ c.id = r := by
  simp [topIds, List.mem_filter, and_assoc]

lemma reaches_inv {cs : List Comment} {x t : Nat} (h : Reaches cs x t) :
    ∃ c, c ∈ cs ∧ c.id = t ∧ ∃ p, c.parent = some p ∧ (p = x ∨ Reaches cs x p) := by
  cases h with
  | child c hc hp => exact ⟨c, hc, rfl, _, hp, Or.inl rfl⟩
  | step c hr hc hp => exact ⟨c, hc, rfl, _, hp, Or.inr hr⟩

lemma eq_of_mem_of_id_eq {cs : List Comment} (hnd : (cs.map (fun c => c.id)).Nodup)
    {c1 c2 : Comment} (h1 : c1 ∈ cs) (h2 : c2 ∈ cs) (h : c1.id = c2.id) : c1 = c2 :=
  List.inj_on_of_nodup_map hnd h1 h2 h

lemma not_reaches_top {cs : List Comment} (hnd : (cs.map (fun c => c.id)).Nodup)
    {x t : Nat} (ht : t ∈ topIds cs) : ¬ Reaches cs x t := by
  intro h
  obtain ⟨c0, hc0, hp0, hid0⟩ := mem_topIds.mp ht
  obtain ⟨c, hc, hid, p, hp, _⟩ := reaches_inv h
  have hcc : c = c0 := eq_of_mem_of_id_eq hnd hc hc0 (by rw [hid, hid0])
  rw [hcc, hp0] at hp
  exact Option.noConfusion hp

lemma reaches_top_unique {cs : List Comment} (hnd : (cs.map (fun c => c.id)).Nodup)
    {r1 r2 y : Nat} (h1 : r1 ∈ topIds cs) (h2 : r2 ∈ topIds cs)
    (hr1 : Reaches cs r1 y) : Reaches cs r2 y → r1 = r2 := by
  induction hr1 with
  | child c hc hp =>
      intro hr2
      obtain ⟨c', hc', hid', p, hp', hor⟩ := reaches_inv hr2
      have hcc : c' = c := eq_of_mem_of_id_eq hnd hc' hc hid'
      subst hcc
      rw [hp] at hp'
      have hpr : p = r1 := (Option.some.injEq _ _).mp hp'.symm
      subst hpr
      rcases hor with h | h
      · exact h
      · exact absurd h (not_reaches_top hnd h1)
  | step c hr hc hp ih =>
      intro hr2
      obtain ⟨c', hc', hid', p, hp', hor⟩ := reaches_inv hr2
      have hcc : c' = c := eq_of_mem_of_id_eq hnd hc' hc hid'
      subst hcc
      rw [hp] at hp'
      have hpr : p = _ := (Option.some.injEq _ _).mp hp'.symm
      subst hpr
      rcases hor with h | h
      · exact absurd (h ▸ hr) (not_reaches_top hnd h2)
      · exact ih h

lemma topIds_nodup (cs : List Comment) (hnd : (cs.map (fun c => c.id)).Nodup) :
    (topIds cs).Nodup :=
  hnd.sublist (List.Sublist.map _ (List.filter_sublist _))

lemma reaches_of_child {cs : List Comment} {r x z : Nat}
    (hxr : x = r ∨ Reaches cs r x) (hz : z ∈ childrenIds cs x) : Reaches cs r z := by
  obtain ⟨c, hc, hp, hid⟩ := mem_childrenIds.mp hz
  subst hid
  rcases hxr with rfl | hxr
  · exact Reaches.child c hc hp
  · exact Reaches.step c hxr hc hp

lemma collect_mem_reaches (cs : List Comment) (r : Nat) :
    ∀ (fuel : Nat) (ids : List Nat) (acc : Finset Nat),
      (∀ z ∈ ids, z = r ∨ Reaches cs r z) →
      (∀ y ∈ acc, Reaches cs r y) →
      ∀ y ∈ (collect cs fuel ids acc).2, Reaches cs r y := by
  intro fuel
  induction fuel with
  | zero => intro ids acc _ hacc y hy; exact hacc y hy
  | succ n ih =>
      intro ids acc hids hacc y hy
      cases ids with
      | nil => exact hacc y hy
      | cons a rest =>
          have hx : (a :: rest).getLast (List.cons_ne_nil a rest) ∈ a :: rest :=
            List.getLast_mem _
          have hstep : collect cs (n + 1) (a :: rest) acc =
              collect cs n
                ((a :: rest).dropLast ++
                  childrenIds cs ((a :: rest).getLast (List.cons_ne_nil a rest)))
                (acc ∪ (childrenIds cs ((a :: rest).getLast (List.cons_ne_nil a rest))).toFinset) :=
            rfl
          rw [hstep] at hy
          refine ih _ _ ?_ ?_ y hy
          · intro z hz
            rcases List.mem_append.mp hz with hz | hz
            · exact hids z ((List.dropLast_sublist _).subset hz)
            · exact Or.inr (reaches_of_child (hids _ hx) hz)
          · intro w hw
            rcases Finset.mem_union.mp hw with hw | hw
            · exact hacc w hw
            · exact reaches_of_child (hids _ hx) (List.mem_toFinset.mp hw)

lemma collect_closed (cs : List Comment) :
    ∀ (fuel : Nat) (ids : List Nat) (acc A : Finset Nat),
      collect cs fuel ids acc = ([], A) →
      (∀ y ∈ acc, y ∈ A) ∧
      (∀ x ∈ ids, ∀ y ∈ childrenIds cs x, y ∈ A) ∧
      (∀ y ∈ A, y ∈ acc ∨ ∀ z ∈ childrenIds cs y, z ∈ A) := by
  intro fuel
  induction fuel with
  | zero =>
      intro ids acc A h
      have h1 : ids = [] := congrArg Prod.fst h
      have h2 : acc = A := congrArg Prod.snd h
      subst h1
      subst h2
      refine ⟨fun y hy => hy, ?_, fun y hy => Or.inl hy⟩
      intro x hx
      exact absurd hx (List.not_mem_nil x)
  | succ n ih =>
      intro ids acc A h
      cases ids with
      | nil =>
          have h2 : acc = A := congrArg Prod.snd h
          subst h2
          refine ⟨fun y hy => hy, ?_, fun y hy => Or.inl hy⟩
          intro x hx
          exact absurd hx (List.not_mem_nil x)
      | cons a rest =>
          have hstep : collect cs (n + 1) (a :: rest) acc =
              collect cs n
                ((a :: rest).dropLast ++
                  childrenIds cs ((a :: rest).getLast (List.cons_ne_nil a rest)))
                (acc ∪ (childrenIds cs ((a :: rest).getLast (List.cons_ne_nil a rest))).toFinset) :=
            rfl
          rw [hstep] at h
          obtain ⟨h1, h2, h3⟩ := ih _ _ _ h
          have hsplit : (a :: rest).dropLast ++
              [(a :: rest).getLast (List.cons_ne_nil a rest)] = a :: rest :=
            List.dropLast_append_getLast (List.cons_ne_nil a rest)
          refine ⟨?_, ?_, ?_⟩
          · intro y hy
            exact h1 y (Finset.mem_union_left _ hy)
          · intro x hx y hy
            rw [← hsplit] at hx
            rcases List.mem_append.mp hx with hx' | hx'
            · exact h2 x (List.mem_append_left _ hx') y hy
            · have hxl : x = (a :: rest).getLast (List.cons_ne_nil a rest) :=
                List.mem_singleton.mp hx'
              subst hxl
              exact h1 y (Finset.mem_union_right _ (List.mem_toFinset.mpr hy))
          · intro y hy
            rcases h3 y hy with hy' | hy'
            · rcases Finset.mem_union.mp hy' with hy'' | hy''
              · exact Or.inl hy''
              · refine Or.inr ?_
                exact h2 y (List.mem_append_right _ (List.mem_toFinset.mp hy''))
            · exact Or.inr hy'

lemma reaches_mem_collect (cs : List Comment) (r : Nat) (fuel : Nat) (A : Finset Nat)
    (h : collect cs fuel [r] ∅ = ([], A)) :
    ∀ y, Reaches cs r y → y ∈ A := by
  obtain ⟨h1, h2, h3⟩ := collect_closed cs fuel [r] ∅ A h
  intro y hy
  induction hy with
  | child c hc hp =>
      exact h2 r (List.mem_singleton.mpr rfl) c.id (mem_childrenIds.mpr ⟨c, hc, hp, rfl⟩)
  | step c hr hc hp ih =>
      rcases h3 _ ih with h0 | hcl
      · exact absurd h0 (Finset.not_mem_empty _)
      · exact hcl c.id (mem_childrenIds.mpr ⟨c, hc, hp, rfl⟩)

lemma updateFlattened_of_not_mem (m : List (Nat × Finset Nat)) (k : Nat) (s : Finset Nat)
    (h : k ∉ m.map Prod.fst) : updateFlattened m k s = m ++ [(k, s)] := by
  induction m with
  | nil => rfl
  | cons e rest ih =>
      obtain ⟨k', s'⟩ := e
      have hk : k' ≠ k := by
        intro hk
        exact h (by simp [hk])
      rw [updateFlattened, if_neg hk]
      rw [ih (fun hm => h (by simp at hm ⊢; exact Or.inr hm))]
      simp

lemma foldl_updateFlattened_eq_map (cs : List Comment) :
    ∀ (top : List Nat) (m : List (Nat × Finset Nat)),
      top.Nodup → (∀ k ∈ top, k ∉ m.map Prod.fst) →
      top.foldl (fun m id => updateFlattened m id (collectSet cs id)) m =
        m ++ top.map (fun r => (r, collectSet cs r)) := by
  intro top
  induction top with
  | nil => intro m _ _; simp
  | cons r rest ih =>
      intro m hnd hks
      rw [List.foldl_cons,
        updateFlattened_of_not_mem _ _ _ (hks r (List.mem_cons_self r rest))]
      rw [ih (m ++ [(r, collectSet cs r)]) (List.nodup_cons.mp hnd).2 ?_]
      · simp
      · intro k hk
        have hkr : k ≠ r := by
          intro hkr
          exact (List.nodup_cons.mp hnd).1 (hkr ▸ hk)
        have hkm : k ∉ m.map Prod.fst := hks k (List.mem_cons_of_mem _ hk)
        simp [hkr, hkm]

lemma buildFlattened_eq_map (cs : List Comment) (hnd : (topIds cs).Nodup) :
    buildFlattened cs (topIds cs) =
      (topIds cs).map (fun r => (r, collectSet cs r)) := by
  have := foldl_updateFlattened_eq_map cs (topIds cs) [] hnd (by simp)
  simpa [buildFlattened] using this

lemma applyFlattened_eq_map (m : List (Nat × Finset Nat)) :
    ∀ cs : List Comment, applyFlattened m cs = cs.map (applyToComment m) := by
  induction m with
  | nil =>
      intro cs
      have h : applyToComment ([] : List (Nat × Finset Nat)) = id := rfl
      rw [h, List.map_id]
      rfl
  | cons e rest ih =>
      intro cs
      have h1 : applyFlattened (e :: rest) cs = applyFlattened rest (applyRootSet e.1 e.2 cs) :=
        rfl
      rw [h1, ih, applyRootSet, List.map_map]
      rfl

lemma applyToComment_eq_self (m : List (Nat × Finset Nat)) (c : Comment)
    (h : ∀ rs ∈ m, c.id ∉ rs.2) : applyToComment m c = c := by
  induction m with
  | nil => rfl
  | cons e rest ih =>
      have h1 : applyToComment (e :: rest) c =
          applyToComment rest (if c.id ∈ e.2 then { c with parent := some e.1 } else c) :=
        rfl
      rw [h1, if_neg (h e (List.mem_cons_self e rest))]
      exact ih (fun rs hrs => h rs (List.mem_cons_of_mem _ hrs))

lemma applyToComment_eq_update (c : Comment) (R : Nat) (sR : Finset Nat) :
    ∀ m : List (Nat × Finset Nat),
      (m.map Prod.fst).Nodup → (R, sR) ∈ m → c.id ∈ sR →
      (∀ rs ∈ m, c.id ∈ rs.2 → rs.1 = R) →
      applyToComment m c = { c with parent := some R } := by
  intro m
  induction m with
  | nil => intro _ hmem _ _; cases hmem
  | cons e rest ih =>
      intro hknd hmem hc honly
      have h1 : applyToComment (e :: rest) c =
          applyToComment rest (if c.id ∈ e.2 then { c with parent := some e.1 } else c) :=
        rfl
      by_cases he : c.id ∈ e.2
      · have heR : e.1 = R := honly e (List.mem_cons_self e rest) he
        rw [h1, if_pos he, heR]
        apply applyToComment_eq_self
        intro rs hrs hin
        have hrsR : rs.1 = R := honly rs (List.mem_cons_of_mem _ hrs) hin
        have hnotin : e.1 ∉ rest.map Prod.fst := (List.nodup_cons.mp hknd).1
        exact absurd (by rw [heR, ← hrsR]; exact List.mem_map_of_mem Prod.fst hrs) hnotin
      · rw [h1, if_neg he]
        have hmem' : (R, sR) ∈ rest := by
          rcases List.mem_cons.mp hmem with heq | hmem'
          · exact absurd (show c.id ∈ e.2 by rw [← heq]; exact hc) he
          · exact hmem'
        exact ih (List.nodup_cons.mp hknd).2 hmem' hc
          (fun rs hrs hin => honly rs (List.mem_cons_of_mem _ hrs) hin)

/-- C1 counterexample: in the chain `1 ← 2 ← 3` (comment 3 a leaf), the
2-to-3 step rewrites comment 3's parent from 2 to the root 1 even though
comment 3 has no descendants (no comment lists it as parent) — a comment
with no descendants is not left unchanged. -/
theorem flatten_leaf_counterexample :
    childrenIds dbChain.comments 3 = [] ∧
    Comment.mk 3 (some 2) "c" ∈ dbChain.comments ∧
    ((step2to3 dbChain).comments.filter (fun c => c.id == 3)).map (fun c => c.parent) =
      [some 1] := by
  decide

/-- C1 amended: assuming distinct comment ids and that the work-stack
traversal of each root terminates (which holds on every forest, the
setting of the claim), the 2-to-3 step keeps the number of rows, gives
every comment that was transitively reachable from a root `R` the new
parent `R`, and leaves every comment that is a descendant of no root —
in particular every root itself — entirely unchanged.  (The original
claim's "comment with no descendants is unchanged" is wrong: a leaf deep
in a chain has no descendants but still gets its parent rewritten.) -/
theorem flatten_migration_correct (db : DB)
    (hnd : (db.comments.map (fun c => c.id)).Nodup)
    (hterm : ∀ r ∈ topIds db.comments,
        (collect db.comments (stackFuel db.comments) [r] ∅).1 = []) :
    ((step2to3 db).comments.length = db.comments.length) ∧
    (∀ R ∈ topIds db.comments, ∀ c ∈ db.comments, Reaches db.comments R c.id →
        { c with parent := some R } ∈ (step2to3 db).comments) ∧
    (∀ c ∈ db.comments, (∀ R ∈ topIds db.comments, ¬ Reaches db.comments R c.id) →
        c ∈ (step2to3 db).comments) := by
  have htop : (topIds db.comments).Nodup := topIds_nodup db.comments hnd
  have hflat : buildFlattened db.comments (topIds db.comments) =
      (topIds db.comments).map (fun r => (r, collectSet db.comments r)) :=
    buildFlattened_eq_map db.comments htop
  have hcomm : (step2to3 db).comments =
      db.comments.map (applyToComment (buildFlattened db.comments (topIds db.comments))) :=
    applyFlattened_eq_map _ db.comments
  have hkeys : ((buildFlattened db.comments (topIds db.comments)).map Prod.fst).Nodup := by
    rw [hflat, List.map_map]
    have hfun : (Prod.fst ∘ fun r => (r, collectSet db.comments r)) = id := rfl
    rw [hfun, List.map_id]
    exact htop
  have hsound : ∀ r y, y ∈ collectSet db.comments r → Reaches db.comments r y := by
    intro r y hy
    refine collect_mem_reaches db.comments r (stackFuel db.comments) [r] ∅ ?_ ?_ y hy
    · intro z hz
      exact Or.inl (List.mem_singleton.mp hz)
    · intro y hy
      exact absurd hy (Finset.not_mem_empty _)
  have hcompl : ∀ r ∈ topIds db.comments, ∀ y, Reaches db.comments r y →
      y ∈ collectSet db.comments r := by
    intro r hr y hy
    have h0 : collect db.comments (stackFuel db.comments) [r] ∅ =
        ([], collectSet db.comments r) := by
      have h1 := hterm r hr
      exact Prod.ext h1 rfl
    exact reaches_mem_collect db.comments r (stackFuel db.comments) _ h0 y hy
  refine ⟨by rw [hcomm, List.length_map], ?_, ?_⟩
  · intro R hR c hc hreach
    rw [hcomm]
    refine List.mem_map.mpr ⟨c, hc, ?_⟩
    refine applyToComment_eq_update c R (collectSet db.comments R) _ hkeys ?_ ?_ ?_
    · rw [hflat]
      exact List.mem_map_of_mem _ hR
    · exact hcompl R hR c.id hreach
    · intro rs hrs hin
      rw [hflat] at hrs
      obtain ⟨r', hr', heq⟩ := List.mem_map.mp hrs
      have hr'reach : Reaches db.comments r' c.id := by
        apply hsound r'
        have : rs.2 = collectSet db.comments r' := by rw [← heq]
        rwa [this] at hin
      have hfst : rs.1 = r' := by rw [← heq]
      rw [hfst]
      exact reaches_top_unique hnd hr' hR hr'reach hreach
  · intro c hc hnone
    rw [hcomm]
    refine List.mem_map.mpr ⟨c, hc, ?_⟩
    apply applyToComment_eq_self
    intro rs hrs hin
    rw [hflat] at hrs
    obtain ⟨r', hr', heq⟩ := List.mem_map.mp hrs
    have : rs.2 = collectSet db.comments r' := by rw [← heq]
    rw [this] at hin
    exact hnone r' hr' (hsound r' c.id hin)

/-- C1 amended witness: on the spec's tree (root 1 with chain 2, 3, 4 and
child 5), the deep descendant 4 ends with parent 1, and the root 1 —
which no root reaches — is unchanged. -/
theorem flatten_migration_correct_witness :
    Comment.mk 4 (some 1) "v4" ∈ (step2to3 dbSpecTree).comments ∧
    Comment.mk 1 none "v1" ∈ (step2to3 dbSpecTree).comments := by
  have h := flatten_migration_correct dbSpecTree (by decide) (by decide)
  constructor
  · refine h.2.1 1 (by decide) (Comment.mk 4 (some 3) "v4") (by decide) ?_
    exact Reaches.step (Comment.mk 4 (some 3) "v4")
      (Reaches.step (Comment.mk 3 (some 2) "v3")
        (Reaches.child (Comment.mk 2 (some 1) "v2") (by decide) rfl)
        (by decide) rfl)
      (by decide) rfl
  · refine h.2.2 (Comment.mk 1 none "v1") (by decide) ?_
    intro R hR hre
    exact not_reaches_top (by decide) (show (1 : Nat) ∈ topIds dbSpecTree.comments by decide) hre
